import Mathlib

/-!
Verification development for the wide-to-long sales/restocks dashboard
(source: `src/1234.py`).  The Python program is shallowly embedded:

* the ingestion/reshape routine `load_data` (lines 12-79) is embedded as a
  Lean function from a raw table to `Except LoadError (List MRow)`;
* the filter engine (`get_filtered_df`, lines 106-111, and the
  cross-filter option computation, lines 124-136) as list filters;
* the date clamp (lines 166-170), the empty-result short-circuit
  (lines 172-177) and the bucketed aggregation (lines 176-183) as
  functions on lists of long rows.

Python string operations used by the source (`str.strip`, `str.lower`,
`in` substring test, `str.replace(pat, "")`) are modelled by structurally
recursive functions on `List Char` so that every definition evaluates
inside the kernel.  Dates are represented by their proleptic-Gregorian
ordinal day number.
-/

/-- True on the ASCII whitespace characters removed by Python's
`str.strip()` (the source only ever strips ordinary header whitespace). -/
def isSpaceCh (c : Char) : Bool :=
  c = ' ' || c = '\t' || c = '\n' || c = '\r'

/-- Lower-case a single ASCII character, as Python's `str.lower()` does on
the ASCII range used by the header names. -/
def lowerCh (c : Char) : Char :=
  if 'A' ≤ c ∧ c ≤ 'Z' then Char.ofNat (c.toNat + 32) else c

/-- Remove leading whitespace from a character list. -/
def dropLeadingSpace : List Char → List Char
  | [] => []
  | c :: cs => if isSpaceCh c then dropLeadingSpace cs else c :: cs

/-- Model of Python `s.strip()` on a character list: drop whitespace from
both ends. -/
def trimChars (s : List Char) : List Char :=
  (dropLeadingSpace (dropLeadingSpace s.reverse).reverse)

/-- Model of `s.strip().lower()`, the column-name normalisation applied at
line 25 of the source. -/
def normName (s : String) : String :=
  ⟨(trimChars s.data).map lowerCh⟩

/-- Test whether `pat` is a prefix of `s`. -/
def startsWithCh : List Char → List Char → Bool
  | [], _ => true
  | _ :: _, [] => false
  | p :: ps, c :: cs => p = c && startsWithCh ps cs

/-- Worker of `containsSub`: true when `pat` occurs as a contiguous substring
of `s`, the meaning of Python's `pat in s` for non-empty `pat`. -/
def containsAux : List Char → List Char → Bool
  | [], pat => startsWithCh pat []
  | c :: cs, pat => startsWithCh pat (c :: cs) || containsAux cs pat

/-- Model of Python's substring test `pat in s` (lines 43-44 of the
source). -/
def containsSub (s pat : String) : Bool :=
  containsAux s.data pat.data

/-- Model of Python's `s.endswith(pat)`; the specification phrases the
family classification in terms of a name suffix, so the suffix test is
needed to compare the two readings. -/
def strEndsWith (s pat : String) : Bool :=
  startsWithCh pat.data.reverse s.data.reverse

/-- If `pat` is a prefix of `s`, return the remainder of `s`. -/
def dropStartCh : List Char → List Char → Option (List Char)
  | [], s => some s
  | _ :: _, [] => none
  | p :: ps, c :: cs => if p = c then dropStartCh ps cs else none

/-- Fuelled worker for `strRemoveAll`: scan left to right, removing every
occurrence of `pat`.  The fuel is the input length, which suffices for the
non-empty patterns (`"_sales"`, `"_restocks"`) the source uses. -/
def removeAllAux (pat : List Char) : Nat → List Char → List Char
  | _, [] => []
  | 0, s => s
  | fuel + 1, c :: cs =>
    match dropStartCh pat (c :: cs) with
    | some rest => removeAllAux pat fuel rest
    | none => c :: removeAllAux pat fuel cs

/-- Model of Python's `s.replace(pat, "")` (lines 59 and 68 of the source):
every occurrence of `pat` is removed, left to right. -/
def strRemoveAll (s pat : String) : String :=
  ⟨removeAllAux pat.data s.data.length s.data⟩

/-- Split a character list at every `'-'`, the shape of the date tokens the
source embeds in column names. -/
def splitDashes : List Char → List (List Char)
  | [] => [[]]
  | c :: cs =>
    match splitDashes cs with
    | [] => [[c]]
    | g :: gs => if c = '-' then [] :: g :: gs else (c :: g) :: gs

/-- Numeric value of a decimal digit list, `none` if empty or non-digit. -/
def digitsToNat : List Char → Option Nat
  | [] => none
  | cs =>
    if cs.all Char.isDigit then
      some (cs.foldl (fun n c => n * 10 + (c.toNat - '0'.toNat)) 0)
    else none

/-- Gregorian leap-year test. -/
def isLeapYear (y : Nat) : Bool :=
  (y % 4 = 0 && y % 100 ≠ 0) || y % 400 = 0

/-- Length of month `m` in year `y`. -/
def daysInMonth (y m : Nat) : Nat :=
  if m = 2 then (if isLeapYear y then 29 else 28)
  else if m = 4 ∨ m = 6 ∨ m = 9 ∨ m = 11 then 30
  else 31

/-- Days in year `y` before the first of month `m`. -/
def daysBeforeMonth (y m : Nat) : Nat :=
  (List.range (m - 1)).foldl (fun acc i => acc + daysInMonth y (i + 1)) 0

/-- Proleptic-Gregorian ordinal of the date `y-m-d` (day 1 = 0001-01-01). -/
def toOrdinal (y m d : Nat) : Nat :=
  365 * (y - 1) + (y - 1) / 4 - (y - 1) / 100 + (y - 1) / 400
    + daysBeforeMonth y m + d

/-- Model of `pd.to_datetime(token, errors="coerce")` (lines 60 and 69) on
the dash-separated `year-month-day` tokens the data uses: a valid calendar
date yields its ordinal, anything else yields `none` (pandas' `NaT`). -/
def parseDate (s : String) : Option Nat :=
  match (splitDashes s.data).map digitsToNat with
  | [some y, some m, some d] =>
    if 1 ≤ y ∧ 1 ≤ m ∧ m ≤ 12 ∧ 1 ≤ d ∧ d ≤ daysInMonth y m then
      some (toOrdinal y m d)
    else none
  | _ => none

example : normName "  Title " = "title" := by decide
example : containsSub "2024-01-01_sales" "_sales" = true := by decide
example : containsSub "2024-01-01_restocks" "_sales" = false := by decide
example : strRemoveAll "2024-01-01_sales" "_sales" = "2024-01-01" := by decide
example : strEndsWith "_sales2024-01-01" "_sales" = false := by decide
example : strRemoveAll "_sales2024-01-01" "_sales" = "2024-01-01" := by decide
example : parseDate "2024-01-01" = some (toOrdinal 2024 1 1) := by decide
example : parseDate "garbage" = none := by decide

/-- A dataframe cell: a string, a number, or a missing value (pandas
`NaN`).  The measurement columns of the data are numeric, so numbers are
carried as integers. -/
inductive Cell where
  | str : String → Cell
  | num : Int → Cell
  | null : Cell
deriving DecidableEq

/-- The raw wide table handed to `load_data` after CSV parsing: a header
row of column names and data rows aligned with it positionally. -/
structure RawTable where
  cols : List String
  rows : List (List Cell)
deriving DecidableEq

/-- Model of `df[c]` for a single row: the cell under the first column named `c`,
`Cell.null` when the column is absent or the row is short. -/
def getCell : List String → List Cell → String → Cell
  | [], _, _ => Cell.null
  | _, [], _ => Cell.null
  | c' :: cols, v :: row, c => if c' = c then v else getCell cols row c

/-- The required identifier columns (line 31 of the source). -/
def required_columns : List String :=
  ["title", "variation", "id", "type", "country", "channel"]

/-- The failure modes of `load_data` surfaced via `st.error` followed by a
`return pd.DataFrame()`: a missing identifier column set (line 36), no
`_sales` column (line 48), no `_restocks` column (line 51). -/
inductive LoadError where
  | missingColumns : List String → LoadError
  | missingSales : LoadError
  | missingRestocks : LoadError
deriving DecidableEq

/-- One melted (long-format) record: the six identifier cells in
`required_columns` order, the date parsed from the column name, and the
measurement cell. -/
structure LongRow where
  key : List Cell
  date : Nat
  value : Cell
deriving DecidableEq

/-- One row of the merged long table: identifiers, date, and the two
measurement cells. -/
structure MRow where
  key : List Cell
  date : Nat
  sales : Cell
  restocks : Cell
deriving DecidableEq

/-- Column names after `df.columns.str.strip().str.lower()` (line 25). -/
def normColsOf (t : RawTable) : List String :=
  t.cols.map normName

/-- The required columns absent from the normalised header (line 34). -/
def missingOf (t : RawTable) : List String :=
  required_columns.filter (fun c => ¬ c ∈ normColsOf t)

/-- Rows surviving `df.dropna(subset=required_columns)` (line 40): every
identifier cell is present. -/
def rowsKept (t : RawTable) : List (List Cell) :=
  t.rows.filter (fun r => required_columns.all
    (fun c => !(getCell (normColsOf t) r c == Cell.null)))

/-- Columns whose name contains `"_sales"` (line 43). -/
def salesColsOf (t : RawTable) : List String :=
  (normColsOf t).filter (fun c => containsSub c "_sales")

/-- Columns whose name contains `"_restocks"` (line 44). -/
def restocksColsOf (t : RawTable) : List String :=
  (normColsOf t).filter (fun c => containsSub c "_restocks")

/-- The identifier tuple of a row: the cells under the six required
columns, the `id_vars` of both melts (lines 55 and 64). -/
def idKey (cols : List String) (r : List Cell) : List Cell :=
  required_columns.map (getCell cols r)

/-- Model of `df.melt(id_vars=required_columns, value_vars=valueCols)` followed by
stripping `pat` from the variable name, `pd.to_datetime(..., "coerce")`
and `dropna(subset=["date"])` (lines 55-61 and 64-70): for each value
column whose stripped name parses as a date, one long row per data row;
columns whose stripped name fails to parse contribute nothing. -/
def melt (cols : List String) (rows : List (List Cell))
    (valueCols : List String) (pat : String) : List LongRow :=
  valueCols.flatMap (fun c =>
    match parseDate (strRemoveAll c pat) with
    | some d => rows.map (fun r => LongRow.mk (idKey cols r) d (getCell cols r c))
    | none => [])

/-- The merge contribution of one left (sales) row: one output row per
matching right (restocks) row, or a single row with a null restock cell
when nothing matches. -/
def mergeBlock (rs : List LongRow) (l : LongRow) : List MRow :=
  match rs.filter (fun r => r.key == l.key && r.date == l.date) with
  | [] => [MRow.mk l.key l.date l.value Cell.null]
  | ms => ms.map (fun r => MRow.mk l.key l.date l.value r.value)

/-- The left (sales-driven) half of the outer merge. -/
def mergeLeft (ls rs : List LongRow) : List MRow :=
  ls.flatMap (mergeBlock rs)

/-- The right (restocks-only) half of the outer merge: the right rows
matched by no left row, with a null sales cell. -/
def mergeRight (ls rs : List LongRow) : List MRow :=
  (rs.filter (fun r =>
    !(ls.any (fun l => l.key == r.key && l.date == r.date)))).map
    (fun r => MRow.mk r.key r.date Cell.null r.value)

/-- Model of `pd.merge(sales_df, restocks_df, on=required_columns+["date"],
how="outer")` (line 73), modelled by its contents: every left row paired
with each matching right row (or a null restock cell when none matches),
followed by the unmatched right rows with a null sales cell. -/
def outerMerge (ls rs : List LongRow) : List MRow :=
  mergeLeft ls rs ++ mergeRight ls rs

/-- The number of merged rows carrying a given identifiers+date key. -/
def cntKD (ms : List MRow) (k : List Cell) (d : Nat) : Nat :=
  (ms.filter (fun m => m.key == k && m.date == d)).length

/-- Model of `fillna(0)` on one cell (lines 76-77). -/
def fillZero : Cell → Cell
  | Cell.null => Cell.num 0
  | c => c

/-- Model of `fillna(0)` on both measurement columns of the merged table. -/
def fillZeros (ms : List MRow) : List MRow :=
  ms.map (fun m => MRow.mk m.key m.date (fillZero m.sales) (fillZero m.restocks))

/-- The ingestion/reshape routine `load_data` (lines 12-79): normalise
column names, fail on missing identifier columns, drop rows with missing
identifiers, fail when a measurement family has no column, melt both
families, outer-join them on identifiers+date and zero-fill the missing
measurements. -/
def load_data (t : RawTable) : Except LoadError (List MRow) :=
  if missingOf t ≠ [] then Except.error (LoadError.missingColumns (missingOf t))
  else if salesColsOf t = [] then Except.error LoadError.missingSales
  else if restocksColsOf t = [] then Except.error LoadError.missingRestocks
  else Except.ok (fillZeros (outerMerge
    (melt (normColsOf t) (rowsKept t) (salesColsOf t) "_sales")
    (melt (normColsOf t) (rowsKept t) (restocksColsOf t) "_restocks")))

/-- The rows of a successful load, `[]` on failure; used to state concrete
evaluations of `load_data`. -/
def loadedRows (t : RawTable) : List MRow :=
  match load_data t with
  | Except.ok out => out
  | Except.error _ => []

/-- Decidable check that a merged row carries no missing value (the date
being a parsed ordinal is never missing by construction). -/
def noNulls (m : MRow) : Bool :=
  m.key.all (fun c => !(c == Cell.null))
    && !(m.sales == Cell.null) && !(m.restocks == Cell.null)

/-- A well-formed concrete input used to evaluate the pipeline. -/
def Tok : RawTable :=
  { cols := [" Title", "Variation", "ID", "Type", "Country", "Channel",
             "2024-01-01_sales", "2024-01-02_sales", "2024-01-01_restocks"]
    rows := [[Cell.str "a", Cell.str "b", Cell.num 1, Cell.str "d",
              Cell.str "e", Cell.str "f", Cell.num 10, Cell.num 5, Cell.num 3],
             [Cell.str "a2", Cell.str "b2", Cell.num 2, Cell.str "d2",
              Cell.str "e2", Cell.str "f2", Cell.null, Cell.num 7, Cell.num 4]] }

example : (loadedRows Tok).length = 4 := by decide
example : (loadedRows Tok).all noNulls = true := by decide

/-- One row of the merged long table as consumed by the interactive part
of the script (filtering, clamping, aggregation).  There the identifier
cells are categorical values and the two measurements are numeric, so they
are carried as strings and integers; `date` is the parsed ordinal. -/
structure DRow where
  title : String
  variation : String
  id : String
  type : String
  country : String
  channel : String
  date : Nat
  sales : Int
  restocks : Int
deriving DecidableEq

/-- The filterable fields (line 92 of the source); note `id` is absent. -/
def filter_fields : List String :=
  ["title", "variation", "type", "country", "channel"]

/-- The session filter state: for each field name, the list of currently
selected values (`st.session_state.filters`); an empty list imposes no
restriction. -/
def Selections : Type := String → List String

/-- Model of `df[field]` for one long row. -/
def fieldVal (r : DRow) (f : String) : String :=
  if f = "title" then r.title
  else if f = "variation" then r.variation
  else if f = "id" then r.id
  else if f = "type" then r.type
  else if f = "country" then r.country
  else if f = "channel" then r.channel
  else ""

/-- The filter engine `get_filtered_df` (lines 106-111): for each
filterable field with a non-empty selection, keep the rows whose value is
one of the selected ones. -/
def get_filtered_df (T : List DRow) (S : Selections) : List DRow :=
  filter_fields.foldl
    (fun df f => if (S f).isEmpty then df
                 else df.filter (fun r => decide (fieldVal r f ∈ S f))) T

/-- Model of `sorted(df[field].unique())` (lines 114-115): the distinct values of a
field, in ascending order.  Python compares strings by code point, modelled
by `leStr` below. -/
def leChars : List Char → List Char → Bool
  | [], _ => true
  | _ :: _, [] => false
  | a :: as, b :: bs => if a = b then leChars as bs else decide (a < b)

/-- Code-point order on strings, the order `sorted` uses. -/
def leStr (a b : String) : Bool :=
  leChars a.data b.data

/-- The option computation `get_filter_options` (lines 114-115). -/
def get_filter_options (df : List DRow) (f : String) : List String :=
  List.insertionSort (fun a b => leStr a b = true)
    ((df.map (fun r => fieldVal r f)).dedup)

/-- The cross-filter base table for one field (lines 125-129): the raw
table filtered by every *other* field's non-empty selection. -/
def cross_filtered (T : List DRow) (S : Selections) (field : String) : List DRow :=
  filter_fields.foldl
    (fun df f => if (f == field) || (S f).isEmpty then df
                 else df.filter (fun r => decide (fieldVal r f ∈ S f))) T

/-- The option list offered for a field (line 131). -/
def options_for (T : List DRow) (S : Selections) (field : String) : List String :=
  get_filter_options (cross_filtered T S field) field

/-- The date-range clamp (lines 167-170): keep rows with
`start ≤ date ≤ end`, both ends inclusive. -/
def clamp (df : List DRow) (s e : Nat) : List DRow :=
  df.filter (fun r => decide (s ≤ r.date) && decide (r.date ≤ e))

/-- Model of `merged_df["date"].min()` over the rows at hand (pandas' group origin
`start_day` for a `{n}D` grouper: bins are anchored at the earliest date
present). -/
def min_date (df : List DRow) : Nat :=
  match df.map (fun r => r.date) with
  | [] => 0
  | d :: ds => ds.foldl min d

/-- The start of the `pd.Grouper(key="date", freq=f"{w}D")` bin containing
date `d`: bins are consecutive `w`-day windows anchored at the minimum
date of the grouped table. -/
def bucket_start (df : List DRow) (w : Nat) (d : Nat) : Nat :=
  min_date df + w * ((d - min_date df) / w)

/-- The groupby key of a row (line 177): its title and its bucket. -/
def row_key (df : List DRow) (w : Nat) (r : DRow) : String × Nat :=
  (r.title, bucket_start df w r.date)

/-- The distinct (title, bucket) keys of the grouped table. -/
def group_keys (df : List DRow) (w : Nat) : List (String × Nat) :=
  (df.map (row_key df w)).dedup

/-- The summed sales of one (title, bucket) group (line 177). -/
def group_sales_sum (df : List DRow) (w : Nat) (k : String × Nat) : Int :=
  ((df.filter (fun r => decide (row_key df w r = k))).map (fun r => r.sales)).sum

/-- The summed restocks of one (title, bucket) group (line 181). -/
def group_restocks_sum (df : List DRow) (w : Nat) (k : String × Nat) : Int :=
  ((df.filter (fun r => decide (row_key df w r = k))).map (fun r => r.restocks)).sum

/-- One row of an aggregated table: title, bucket start, summed value. -/
structure AggRow where
  title : String
  date : Nat
  value : Int
deriving DecidableEq

/-- The aggregate `sales_agg` (lines 177-178): per-group sales sums, sorted by bucket
date ascending. -/
def sales_agg (df : List DRow) (w : Nat) : List AggRow :=
  List.insertionSort (fun a b => a.date ≤ b.date)
    ((group_keys df w).map (fun k => AggRow.mk k.1 k.2 (group_sales_sum df w k)))

/-- The aggregate `restocks_agg` (lines 181-183): per-group restock sums converted to
their absolute value, sorted by bucket date ascending. -/
def restocks_agg (df : List DRow) (w : Nat) : List AggRow :=
  List.insertionSort (fun a b => a.date ≤ b.date)
    ((group_keys df w).map (fun k => AggRow.mk k.1 k.2 |group_restocks_sum df w k|))

/-- What one interaction renders: either the explicit "no data" warning
(line 174) or the two aggregated chart tables plus the filtered table
(lines 176-201). -/
inductive RenderOutput where
  | noData : RenderOutput
  | charts : List AggRow → List AggRow → List DRow → RenderOutput
deriving DecidableEq

/-- The empty-check branch (lines 173-183): warn when the filtered table
is empty, otherwise aggregate and render. -/
def render (filtered : List DRow) (w : Nat) : RenderOutput :=
  if filtered.isEmpty then RenderOutput.noData
  else RenderOutput.charts (sales_agg filtered w) (restocks_agg filtered w) filtered

/-- One full interaction (lines 166-183): field filtering, date clamp,
then the render step. -/
def interaction (T : List DRow) (S : Selections) (s e w : Nat) : RenderOutput :=
  render (clamp (get_filtered_df T S) s e) w

/-- Concrete rows used to evaluate the interactive pipeline. -/
def dr (t v i ty c ch : String) (d : Nat) (s rst : Int) : DRow :=
  ⟨t, v, i, ty, c, ch, d, s, rst⟩

def Tw : List DRow :=
  [dr "a" "v1" "1" "ty" "us" "web" 100 10 (-5),
   dr "a" "v2" "2" "ty" "us" "shop" 103 2 2,
   dr "b" "v1" "3" "ty" "de" "web" 109 7 1]

def Semp : Selections := fun _ => []

example : get_filtered_df Tw Semp = Tw := by decide
example : get_filtered_df Tw (fun f => if f = "country" then ["us"] else []) =
    [Tw[0], Tw[1]] := by decide
example : options_for Tw Semp "title" = ["a", "b"] := by decide
example : options_for Tw (fun f => if f = "country" then ["de"] else []) "title" =
    ["b"] := by decide
example : clamp Tw 100 105 = [Tw[0], Tw[1]] := by decide
example : min_date Tw = 100 := by decide
example : sales_agg Tw 7 = [AggRow.mk "a" 100 12, AggRow.mk "b" 107 7] := by decide
example : restocks_agg Tw 7 = [AggRow.mk "a" 100 3, AggRow.mk "b" 107 1] := by decide
example : interaction Tw Semp 200 300 7 = RenderOutput.noData := by decide

/-- The filter predicate `get_filtered_df` amounts to: every filterable
field is either unrestricted or selects the row's value. -/
def passes (S : Selections) (r : DRow) : Bool :=
  filter_fields.all (fun f => (S f).isEmpty || decide (fieldVal r f ∈ S f))

/-- The predicate `cross_filtered` amounts to: every filterable field other
than the one being offered is either unrestricted or selects the row's
value. -/
def cross_passes (S : Selections) (field : String) (r : DRow) : Bool :=
  filter_fields.all
    (fun f => ((f == field) || (S f).isEmpty) || decide (fieldVal r f ∈ S f))

/-- The buckets present in a grouped table: the distinct bucket starts of
its rows. -/
def bucket_list (df : List DRow) (w : Nat) : List Nat :=
  (df.map (fun r => bucket_start df w r.date)).dedup

/-- Update one field's selection, leaving the others unchanged. -/
def setSel (S : Selections) (g : String) (sel : List String) : Selections :=
  fun f => if f = g then sel else S f

/-- Input with two fully identical rows: its identifier tuples collide. -/
def T2 : RawTable :=
  { cols := ["title", "variation", "id", "type", "country", "channel",
             "2024-01-01_sales", "2024-01-01_restocks"]
    rows := [[Cell.str "a", Cell.str "b", Cell.str "c", Cell.str "d",
              Cell.str "e", Cell.str "f", Cell.num 1, Cell.num 2],
             [Cell.str "a", Cell.str "b", Cell.str "c", Cell.str "d",
              Cell.str "e", Cell.str "f", Cell.num 1, Cell.num 2]] }

/-- The identifier tuple shared by both rows of `T2`. -/
def K2 : List Cell :=
  [Cell.str "a", Cell.str "b", Cell.str "c", Cell.str "d",
   Cell.str "e", Cell.str "f"]

/-- Input whose measurement column `"_sales2024-01-01"` contains `_sales`
without ending in it. -/
def T3 : RawTable :=
  { cols := ["title", "variation", "id", "type", "country", "channel",
             "_sales2024-01-01", "2024-01-01_restocks"]
    rows := [[Cell.str "a", Cell.str "b", Cell.str "c", Cell.str "d",
              Cell.str "e", Cell.str "f", Cell.num 7, Cell.num 9]] }

/-- Input lacking only the `country` identifier column. -/
def T4 : RawTable :=
  { cols := ["Title", "variation", "id", "type", "channel",
             "2024-01-01_sales", "2024-01-01_restocks"]
    rows := [[Cell.str "a", Cell.str "b", Cell.str "c", Cell.str "d",
              Cell.str "f", Cell.num 1, Cell.num 2]] }

/-! ### General lemmas about the sequential field filters -/

theorem foldl_guard_filter {α : Type} (g : String → Bool) (p : String → α → Bool) :
    ∀ (fs : List String) (T : List α),
      fs.foldl (fun df f => if g f then df else df.filter (p f)) T
        = T.filter (fun r => fs.all (fun f => g f || p f r)) := by
  intro fs
  induction fs with
  | nil => intro T; simp
  | cons f fs ih =>
    intro T
    simp only [List.foldl_cons, List.all_cons]
    rw [ih]
    by_cases h : g f = true
    · simp [h]
    · simp only [Bool.not_eq_true] at h
      simp only [h, Bool.false_or, if_neg Bool.false_ne_true]
      rw [List.filter_filter]
      apply List.filter_congr
      intro x _
      cases p f x <;> simp

theorem get_filtered_df_eq (T : List DRow) (S : Selections) :
    get_filtered_df T S = T.filter (passes S) :=
  foldl_guard_filter (fun f => (S f).isEmpty)
    (fun f r => decide (fieldVal r f ∈ S f)) filter_fields T

theorem cross_filtered_eq (T : List DRow) (S : Selections) (field : String) :
    cross_filtered T S field = T.filter (cross_passes S field) :=
  foldl_guard_filter (fun f => (f == field) || (S f).isEmpty)
    (fun f r => decide (fieldVal r f ∈ S f)) filter_fields T

/-- C5: the filter engine is idempotent — applying the same selection map
twice yields the same table as applying it once. -/
theorem filter_engine_idempotent (T : List DRow) (S : Selections) :
    get_filtered_df (get_filtered_df T S) S = get_filtered_df T S := by
  simp only [get_filtered_df_eq, List.filter_filter]
  apply List.filter_congr
  intro x _
  cases passes S x <;> simp

/-- C9: when field filtering plus the date clamp eliminates every row, the
interaction renders the explicit no-data warning and builds no aggregate
and no chart. -/
theorem empty_filter_no_data (T : List DRow) (S : Selections) (s e w : Nat)
    (h : clamp (get_filtered_df T S) s e = []) :
    interaction T S s e w = RenderOutput.noData := by
  unfold interaction render
  rw [h]
  rfl

/-- Witness for C9: a date window past every row of `Tw` leaves nothing,
and the interaction reports no data. -/
theorem empty_filter_no_data_witness :
    clamp (get_filtered_df Tw Semp) 200 300 = []
      ∧ interaction Tw Semp 200 300 7 = RenderOutput.noData :=
  ⟨by decide, empty_filter_no_data Tw Semp 200 300 7 (by decide)⟩

/-- C7: every row of the restocks aggregate carries the absolute value of
its group's summed raw restocks, while every row of the sales aggregate
carries the plain sum of its group's sales. -/
theorem restocks_abs_sales_plain (df : List DRow) (w : Nat) :
    (∀ a ∈ restocks_agg df w, a.value = |group_restocks_sum df w (a.title, a.date)|)
      ∧ (∀ a ∈ sales_agg df w, a.value = group_sales_sum df w (a.title, a.date)) := by
  constructor
  · intro a ha
    rw [restocks_agg, List.mem_insertionSort] at ha
    obtain ⟨k, _, rfl⟩ := List.mem_map.mp ha
    rfl
  · intro a ha
    rw [sales_agg, List.mem_insertionSort] at ha
    obtain ⟨k, _, rfl⟩ := List.mem_map.mp ha
    rfl

/-- Witness for C7: in `Tw` the title-`a` bucket holds raw restocks
`[-5, +2]`; the reported figure is `|-5 + 2| = 3`, not `5 + 2 = 7`. -/
theorem restocks_abs_sales_plain_witness :
    AggRow.mk "a" 100 3 ∈ restocks_agg Tw 7
      ∧ (AggRow.mk "a" 100 3).value = |group_restocks_sum Tw 7 ("a", 100)|
      ∧ group_restocks_sum Tw 7 ("a", 100) = -3
      ∧ (Tw.filter (fun r => decide (row_key Tw 7 r = ("a", 100)))).map
          (fun r => r.restocks) = [-5, 2] :=
  ⟨by decide,
   (restocks_abs_sales_plain Tw 7).1 (AggRow.mk "a" 100 3) (by decide),
   by decide, by decide⟩

/-- C6: cross-filter narrowing is monotone — with field `G` previously
unrestricted, restricting `G` to any selection can only shrink the option
list offered for a different field `F`. -/
theorem cross_filter_narrowing (T : List DRow) (S : Selections) (F G : String)
    (sel : List String) (hFG : F ≠ G) (hG : S G = []) (x : String)
    (hx : x ∈ options_for T (setSel S G sel) F) : x ∈ options_for T S F := by
  rw [options_for, get_filter_options, List.mem_insertionSort, List.mem_dedup] at hx ⊢
  obtain ⟨r, hr, rfl⟩ := List.mem_map.mp hx
  refine List.mem_map.mpr ⟨r, ?_, rfl⟩
  rw [cross_filtered_eq, List.mem_filter] at hr ⊢
  refine ⟨hr.1, ?_⟩
  rw [cross_passes, List.all_eq_true]
  intro f hf
  have hsf := List.all_eq_true.mp hr.2 f hf
  by_cases hfg : f = G
  · subst hfg
    simp [hG]
  · rwa [show setSel S G sel f = S f from if_neg hfg] at hsf

/-- Witness for C6: restricting `country` to `["de"]` leaves `"b"` among
the title options, and `"b"` is also offered with `country` unrestricted. -/
theorem cross_filter_narrowing_witness :
    ("title" : String) ≠ "country"
      ∧ "b" ∈ options_for Tw (setSel Semp "country" ["de"]) "title"
      ∧ "b" ∈ options_for Tw Semp "title" :=
  ⟨by decide, by decide,
   cross_filter_narrowing Tw Semp "title" "country" ["de"]
     (by decide) rfl "b" (by decide)⟩

/-- C4: when any required identifier column is missing after
normalisation, `load_data` fails with an error naming exactly the missing
required columns, and yields no table. -/
theorem missing_columns_exact (t : RawTable) (h : missingOf t ≠ []) :
    load_data t = Except.error (LoadError.missingColumns (missingOf t))
      ∧ (∀ c, c ∈ missingOf t ↔ (c ∈ required_columns ∧ c ∉ normColsOf t)) := by
  constructor
  · rw [load_data, if_pos h]
  · intro c
    rw [missingOf, List.mem_filter]
    simp

/-- Witness for C4: dropping only the `country` column makes `load_data`
fail naming exactly `["country"]`. -/
theorem missing_columns_exact_witness :
    load_data T4 = Except.error (LoadError.missingColumns (missingOf T4))
      ∧ missingOf T4 = ["country"] :=
  ⟨(missing_columns_exact T4 (by decide)).1, by decide⟩

theorem all_congr_mem {α : Type} {p q : α → Bool} :
    ∀ {l : List α}, (∀ x ∈ l, p x = q x) → l.all p = l.all q := by
  intro l
  induction l with
  | nil => intro _; rfl
  | cons a l ih =>
    intro h
    rw [List.all_cons, List.all_cons, h a (List.mem_cons_self a l),
      ih (fun x hx => h x (List.mem_cons_of_mem a hx))]

theorem fieldVal_id_irrelevant (r : DRow) (v : String) :
    ∀ f ∈ filter_fields, fieldVal { r with id := v } f = fieldVal r f := by
  intro f hf
  rw [filter_fields] at hf
  simp only [List.mem_cons, List.not_mem_nil, or_false] at hf
  rcases hf with rfl | rfl | rfl | rfl | rfl <;> rfl

theorem min_date_congr {df df' : List DRow}
    (h : df.map (fun r => r.date) = df'.map (fun r => r.date)) :
    min_date df = min_date df' := by
  rw [min_date, min_date, h]

/-- Mapping a row transform `g` preserving title, date, sales and
restocks yields the same grouped aggregates. -/
theorem agg_depends_only_on_key_and_values (df : List DRow) (w : Nat)
    (g : DRow → DRow) (ht : ∀ r, (g r).title = r.title)
    (hd : ∀ r, (g r).date = r.date) (hs : ∀ r, (g r).sales = r.sales)
    (hr : ∀ r, (g r).restocks = r.restocks) :
    sales_agg (df.map g) w = sales_agg df w
      ∧ restocks_agg (df.map g) w = restocks_agg df w := by
  have hmin : min_date (df.map g) = min_date df := by
    apply min_date_congr
    rw [List.map_map]
    exact List.map_congr_left (fun r _ => hd r)
  have hbs : ∀ d, bucket_start (df.map g) w d = bucket_start df w d := by
    intro d
    rw [bucket_start, bucket_start, hmin]
  have hkey : ∀ r, row_key (df.map g) w (g r) = row_key df w r := by
    intro r
    rw [row_key, row_key, ht, hbs, hd]
  have hkeys : group_keys (df.map g) w = group_keys df w := by
    rw [group_keys, group_keys, List.map_map]
    congr 1
    exact List.map_congr_left (fun r _ => hkey r)
  have hfilter : ∀ k, (df.map g).filter (fun r => decide (row_key (df.map g) w r = k))
      = (df.filter (fun r => decide (row_key df w r = k))).map g := by
    intro k
    rw [List.filter_map]
    congr 1
    apply List.filter_congr
    intro r _
    simp only [Function.comp_apply, hkey r]
  have hssum : ∀ k, group_sales_sum (df.map g) w k = group_sales_sum df w k := by
    intro k
    rw [group_sales_sum, group_sales_sum, hfilter, List.map_map]
    congr 1
    exact List.map_congr_left (fun r _ => hs r)
  have hrsum : ∀ k, group_restocks_sum (df.map g) w k = group_restocks_sum df w k := by
    intro k
    rw [group_restocks_sum, group_restocks_sum, hfilter, List.map_map]
    congr 1
    exact List.map_congr_left (fun r _ => hr r)
  constructor
  · rw [sales_agg, sales_agg, hkeys]
    congr 1
    exact List.map_congr_left (fun k _ => by rw [hssum])
  · rw [restocks_agg, restocks_agg, hkeys]
    congr 1
    exact List.map_congr_left (fun k _ => by rw [hrsum])

/-- C10: the aggregation group key is fixed to `title` and `id` is not
filterable — `id` is absent from the filterable fields, rewriting every
row's `id` commutes with the filter engine (so no selection can restrict
by `id`), and any rewrite of the non-title identifier fields that keeps
title, date and the measurements leaves both aggregates unchanged (rows
sharing a title land in the same series regardless of those fields). -/
theorem title_only_grouping_id_unfilterable :
    ("id" ∉ filter_fields)
      ∧ (∀ (T : List DRow) (S : Selections) (v : String),
          get_filtered_df (T.map (fun r => { r with id := v })) S
            = (get_filtered_df T S).map (fun r => { r with id := v }))
      ∧ (∀ (df : List DRow) (w : Nat) (g : DRow → DRow),
          (∀ r, (g r).title = r.title) → (∀ r, (g r).date = r.date) →
          (∀ r, (g r).sales = r.sales) → (∀ r, (g r).restocks = r.restocks) →
          sales_agg (df.map g) w = sales_agg df w
            ∧ restocks_agg (df.map g) w = restocks_agg df w) := by
  refine ⟨by decide, ?_, fun df w g ht hd hs hr =>
    agg_depends_only_on_key_and_values df w g ht hd hs hr⟩
  intro T S v
  rw [get_filtered_df_eq, get_filtered_df_eq, List.filter_map]
  have h : T.filter (passes S ∘ fun r => { r with id := v })
      = T.filter (passes S) := by
    apply List.filter_congr
    intro r _
    simp only [Function.comp_apply, passes]
    exact all_congr_mem (fun f hf => by rw [fieldVal_id_irrelevant r v f hf])
  rw [h]

/-- Witness for C10: rewriting `id` on `Tw` commutes with filtering, and
rewriting `variation` leaves the sales aggregate unchanged. -/
theorem title_only_grouping_id_unfilterable_witness :
    get_filtered_df (Tw.map (fun r => { r with id := "9" })) Semp
        = (get_filtered_df Tw Semp).map (fun r => { r with id := "9" })
      ∧ sales_agg (Tw.map (fun r => { r with variation := "z" })) 7
        = sales_agg Tw 7 :=
  ⟨title_only_grouping_id_unfilterable.2.1 Tw Semp "9",
   (title_only_grouping_id_unfilterable.2.2 Tw 7
     (fun r => { r with variation := "z" })
     (fun _ => rfl) (fun _ => rfl) (fun _ => rfl) (fun _ => rfl)).1⟩

/-! ### Bucketing arithmetic -/

theorem foldl_min_le_init : ∀ (as : List Nat) (x : Nat), as.foldl min x ≤ x := by
  intro as
  induction as with
  | nil => intro x; exact Nat.le_refl x
  | cons a as ih =>
    intro x
    exact Nat.le_trans (ih (min x a)) (Nat.min_le_left x a)

theorem foldl_min_le_mem : ∀ (as : List Nat) (x a : Nat), a ∈ as → as.foldl min x ≤ a := by
  intro as
  induction as with
  | nil => intro x a h; cases h
  | cons b bs ih =>
    intro x a h
    rcases List.mem_cons.mp h with rfl | h
    · exact Nat.le_trans (foldl_min_le_init bs (min x a)) (Nat.min_le_right x a)
    · exact ih (min x b) a h

theorem min_date_le {df : List DRow} {r : DRow} (h : r ∈ df) :
    min_date df ≤ r.date := by
  cases df with
  | nil => cases h
  | cons r0 rs =>
    rw [min_date, List.map_cons]
    rcases List.mem_cons.mp h with rfl | h
    · exact foldl_min_le_init _ _
    · exact foldl_min_le_mem _ _ _ (List.mem_map.mpr ⟨r, h, rfl⟩)

theorem bucket_start_contains {df : List DRow} {w d : Nat} (hw : 0 < w)
    (hmin : min_date df ≤ d) :
    bucket_start df w d ≤ d ∧ d < bucket_start df w d + w := by
  rw [bucket_start]
  have h1 := Nat.div_add_mod (d - min_date df) w
  have h2 := Nat.mod_lt (d - min_date df) hw
  omega

theorem bucket_start_unique {df : List DRow} {w d : Nat}
    (hmin : min_date df ≤ d) (k : Nat)
    (h1 : min_date df + w * k ≤ d) (h2 : d < min_date df + w * k + w) :
    min_date df + w * k = bucket_start df w d := by
  rw [bucket_start]
  have hk : (d - min_date df) / w = k := by
    apply Nat.div_eq_of_lt_le
    · rw [Nat.mul_comm]; omega
    · rw [Nat.succ_mul, Nat.mul_comm]; omega
  rw [hk]

/-! ### Grouped sums partition the total -/

theorem sum_filter_not_filter {α : Type} (p : α → Bool) (val : α → Int) :
    ∀ (l : List α),
      ((l.filter p).map val).sum + ((l.filter (fun a => !p a)).map val).sum
        = (l.map val).sum := by
  intro l
  induction l with
  | nil => rfl
  | cons a as ih =>
    cases h : p a <;>
      simp only [List.filter_cons, h, Bool.not_true, Bool.not_false,
        if_pos, if_neg, List.map_cons, List.sum_cons, Bool.false_eq_true,
        ite_false, ite_true] <;> omega

theorem sum_groups {α κ : Type} [DecidableEq κ] (key : α → κ) (val : α → Int) :
    ∀ (K : List κ), K.Nodup → ∀ (df : List α), (∀ a ∈ df, key a ∈ K) →
      (K.map (fun k => ((df.filter (fun a => decide (key a = k))).map val).sum)).sum
        = (df.map val).sum := by
  intro K
  induction K with
  | nil =>
    intro _ df hdf
    cases df with
    | nil => rfl
    | cons a as => exact absurd (hdf a (List.mem_cons_self a as)) (List.not_mem_nil _)
  | cons k K ih =>
    intro hK df hdf
    rw [List.map_cons, List.sum_cons]
    have hknotin : k ∉ K := (List.nodup_cons.mp hK).1
    have htail : ∀ k' ∈ K,
        ((df.filter (fun a => decide (key a = k'))).map val).sum
          = (((df.filter (fun a => !decide (key a = k))).filter
              (fun a => decide (key a = k'))).map val).sum := by
      intro k' hk'
      have hne : k' ≠ k := fun h => hknotin (h ▸ hk')
      rw [List.filter_filter]
      congr 2
      apply List.filter_congr
      intro a _
      by_cases h : key a = k'
      · have : ¬ key a = k := fun hh => hne (h ▸ hh ▸ rfl)
        simp [h, this, hne]
      · simp [h]
    have hmap : K.map (fun k' => ((df.filter (fun a => decide (key a = k'))).map val).sum)
        = K.map (fun k' => (((df.filter (fun a => !decide (key a = k))).filter
            (fun a => decide (key a = k'))).map val).sum) :=
      List.map_congr_left htail
    rw [hmap, ih (List.nodup_cons.mp hK).2 (df.filter (fun a => !decide (key a = k)))
      (fun a ha => by
        have hmem := List.mem_filter.mp ha
        rcases List.mem_cons.mp (hdf a hmem.1) with h | h
        · exact absurd (decide_eq_true h) (by simpa using hmem.2)
        · exact h)]
    exact sum_filter_not_filter (fun a => decide (key a = k)) val df

/-- C8: with a positive bucket width and a non-empty filtered table, every
bucket is a right-open `w`-day interval anchored at the minimum filtered
date, every filtered date lies in its own bucket and in no other bucket of
the grouped table, and the per-bucket sales sums add up to the total
filtered sales. -/
theorem buckets_partition_and_sum (df : List DRow) (w : Nat)
    (_hne : df ≠ []) (hw : 0 < w) :
    (∀ r ∈ df, ∃ k, bucket_start df w r.date = min_date df + w * k
        ∧ bucket_start df w r.date ≤ r.date
        ∧ r.date < bucket_start df w r.date + w)
      ∧ (∀ r ∈ df, ∀ b ∈ bucket_list df w,
          b ≤ r.date → r.date < b + w → b = bucket_start df w r.date)
      ∧ ((sales_agg df w).map (fun a => a.value)).sum
          = (df.map (fun r => r.sales)).sum := by
  refine ⟨?_, ?_, ?_⟩
  · intro r hr
    have hmin := min_date_le hr
    have hc := bucket_start_contains hw hmin
    exact ⟨(r.date - min_date df) / w, rfl, hc.1, hc.2⟩
  · intro r hr b hb hble hblt
    have hmin := min_date_le hr
    obtain ⟨r', _, rfl⟩ := List.mem_map.mp (List.mem_dedup.mp hb)
    exact bucket_start_unique hmin ((r'.date - min_date df) / w) hble hblt
  · have hperm : ((sales_agg df w).map (fun a => a.value)).Perm
        (((group_keys df w).map
          (fun k => AggRow.mk k.1 k.2 (group_sales_sum df w k))).map
            (fun a => a.value)) :=
      (List.perm_insertionSort _ _).map _
    rw [hperm.sum_eq, List.map_map]
    have hmap : ((group_keys df w).map
        ((fun a => a.value) ∘ fun k => AggRow.mk k.1 k.2 (group_sales_sum df w k)))
        = (group_keys df w).map (fun k =>
            ((df.filter (fun r => decide (row_key df w r = k))).map
              (fun r => r.sales)).sum) :=
      List.map_congr_left (fun k _ => rfl)
    rw [hmap]
    exact sum_groups (row_key df w) (fun r => r.sales) (group_keys df w)
      (List.nodup_dedup _)
      df (fun r hr => List.mem_dedup.mpr (List.mem_map.mpr ⟨r, hr, rfl⟩))

/-- Witness for C8: on `Tw` with 7-day buckets the aggregate's sales add
up to the table's total sales, and row 0 lies in its own bucket. -/
theorem buckets_partition_and_sum_witness :
    ((sales_agg Tw 7).map (fun a => a.value)).sum
        = (Tw.map (fun r => r.sales)).sum
      ∧ ((sales_agg Tw 7).map (fun a => a.value)).sum = 19 :=
  ⟨(buckets_partition_and_sum Tw 7 (by decide) (by decide)).2.2, by decide⟩


/-! ### The load pipeline's null-freedom -/

theorem fillZero_ne_null : ∀ c, fillZero c ≠ Cell.null := by
  intro c
  cases c <;> simp [fillZero]

theorem melt_mem_key {cols : List String} {rows : List (List Cell)}
    {vcs : List String} {pat : String} {lr : LongRow}
    (h : lr ∈ melt cols rows vcs pat) :
    ∃ r0 ∈ rows, lr.key = idKey cols r0 := by
  rw [melt, List.mem_flatMap] at h
  obtain ⟨c, _, hlr⟩ := h
  cases hp : parseDate (strRemoveAll c pat) with
  | none => rw [hp] at hlr; cases hlr
  | some d =>
    rw [hp] at hlr
    obtain ⟨r0, hr0, rfl⟩ := List.mem_map.mp hlr
    exact ⟨r0, hr0, rfl⟩

theorem outerMerge_mem_key {ls rs : List LongRow} {m : MRow}
    (hm : m ∈ outerMerge ls rs) :
    (∃ l ∈ ls, m.key = l.key) ∨ (∃ r ∈ rs, m.key = r.key) := by
  rw [outerMerge, List.mem_append] at hm
  rcases hm with hm | hm
  · left
    rw [mergeLeft, List.mem_flatMap] at hm
    obtain ⟨l, hl, hml⟩ := hm
    refine ⟨l, hl, ?_⟩
    rw [mergeBlock] at hml
    cases hf : rs.filter (fun r => r.key == l.key && r.date == l.date) with
    | nil =>
      rw [hf] at hml
      rcases List.mem_singleton.mp hml with rfl
      rfl
    | cons r0 ms =>
      rw [hf] at hml
      obtain ⟨r1, _, rfl⟩ := List.mem_map.mp hml
      rfl
  · right
    rw [mergeRight] at hm
    obtain ⟨r0, hr0, rfl⟩ := List.mem_map.mp hm
    exact ⟨r0, (List.mem_filter.mp hr0).1, rfl⟩

theorem rowsKept_key_ne_null {t : RawTable} {r0 : List Cell}
    (h : r0 ∈ rowsKept t) :
    ∀ c ∈ idKey (normColsOf t) r0, c ≠ Cell.null := by
  intro c hc
  obtain ⟨col, hcol, rfl⟩ := List.mem_map.mp hc
  have hall := List.all_eq_true.mp (List.mem_filter.mp h).2 col hcol
  simp only [Bool.not_eq_eq_eq_not, Bool.not_true, beq_eq_false_iff_ne,
    ne_eq] at hall
  intro hnull
  simp [hnull] at hall

/-- C1: every table returned by a successful `load_data` has no missing
value in any identifier cell and none in the sales or restocks cells (the
date, a parsed ordinal, cannot be missing by construction). -/
theorem load_no_nulls (t : RawTable) (out : List MRow)
    (h : load_data t = Except.ok out) : out.all noNulls = true := by
  rw [load_data] at h
  split_ifs at h with h1 h2 h3
  rw [Except.ok.injEq] at h
  subst h
  rw [List.all_eq_true]
  intro m hm
  obtain ⟨m0, hm0, rfl⟩ := List.mem_map.mp hm
  rw [noNulls]
  have hkey : ∀ c ∈ m0.key, c ≠ Cell.null := by
    rcases outerMerge_mem_key hm0 with ⟨l, hl, hk⟩ | ⟨r, hr, hk⟩
    · obtain ⟨r0, hr0, hk0⟩ := melt_mem_key hl
      rw [hk, hk0]
      exact rowsKept_key_ne_null hr0
    · obtain ⟨r0, hr0, hk0⟩ := melt_mem_key hr
      rw [hk, hk0]
      exact rowsKept_key_ne_null hr0
  simp only [Bool.and_eq_true, List.all_eq_true]
  refine ⟨⟨fun c hc => ?_, ?_⟩, ?_⟩
  · simpa using hkey c hc
  · simpa using fillZero_ne_null m0.sales
  · simpa using fillZero_ne_null m0.restocks

/-- Witness for C1: the loaded rows of the concrete table `Tok` (which
contains a missing measurement cell) all pass the null check. -/
theorem load_no_nulls_witness :
    load_data Tok = Except.ok (loadedRows Tok)
      ∧ (loadedRows Tok).all noNulls = true :=
  ⟨rfl, load_no_nulls Tok (loadedRows Tok) rfl⟩

/-! ### Family classification -/

/-- Counterexample to C3: the column `"_sales2024-01-01"` does not end in
`"_sales"`, yet `load_data` classifies it into the sales family (its value
`7` appears as a sales figure dated 2024-01-01), because the source tests
substring containment, not a suffix. -/
theorem family_suffix_claim_false :
    strEndsWith "_sales2024-01-01" "_sales" = false
      ∧ "_sales2024-01-01" ∈ salesColsOf T3
      ∧ (loadedRows T3).any
          (fun m => m.sales == Cell.num 7 && m.date == toOrdinal 2024 1 1) = true := by
  refine ⟨by decide, by decide, by decide⟩

/-- C3 (amended): a column is classified into the sales family iff its
name contains `"_sales"` as a substring (restocks family iff it contains
`"_restocks"`); the date of its long rows is obtained by deleting every
occurrence of that substring from the name and parsing the remainder;
a column whose remainder fails to parse contributes no rows, and that
failure is silent — `load_data` succeeds exactly when the identifier
columns are present and both families are non-empty. -/
theorem family_by_substring (t : RawTable) (c : String) :
    (c ∈ salesColsOf t ↔ c ∈ normColsOf t ∧ containsSub c "_sales" = true)
      ∧ (c ∈ restocksColsOf t ↔ c ∈ normColsOf t ∧ containsSub c "_restocks" = true)
      ∧ (∀ rows, parseDate (strRemoveAll c "_sales") = none →
          melt (normColsOf t) rows [c] "_sales" = [])
      ∧ (∀ rows d, parseDate (strRemoveAll c "_sales") = some d →
          melt (normColsOf t) rows [c] "_sales"
            = rows.map (fun r =>
                LongRow.mk (idKey (normColsOf t) r) d (getCell (normColsOf t) r c)))
      ∧ ((load_data t).isOk = true
          ↔ (missingOf t = [] ∧ salesColsOf t ≠ [] ∧ restocksColsOf t ≠ [])) := by
  refine ⟨?_, ?_, ?_, ?_, ?_⟩
  · rw [salesColsOf, List.mem_filter]
  · rw [restocksColsOf, List.mem_filter]
  · intro rows hp
    rw [melt]
    simp [hp]
  · intro rows d hp
    rw [melt]
    simp [hp]
  · rw [load_data]
    split_ifs with h1 h2 h3 <;> simp_all [Except.isOk, Except.toBool]

/-- Witness for C3 (amended): on `T3` the containment test admits the
column `"_sales2024-01-01"`, and the load succeeds even though the
column is no suffix match. -/
theorem family_by_substring_witness :
    "_sales2024-01-01" ∈ salesColsOf T3 ∧ (load_data T3).isOk = true :=
  ⟨(family_by_substring T3 "_sales2024-01-01").1.mpr (by decide),
   ((family_by_substring T3 "_sales2024-01-01").2.2.2.2).mpr (by decide)⟩

/-! ### Uniqueness of the identifiers+date key -/

/-- Counterexample to C2: the input `T2` repeats one row verbatim, and the
outer join then produces four merged records with the same identifier
tuple and date — more than one record per key. -/
theorem merged_key_unique_claim_false :
    2 ≤ cntKD (loadedRows T2) K2 (toOrdinal 2024 1 1) := by decide

theorem melt_dates_mem {cols : List String} {rows : List (List Cell)}
    {vcs : List String} {pat : String} {lr : LongRow}
    (h : lr ∈ melt cols rows vcs pat) :
    lr.date ∈ vcs.filterMap (fun c => parseDate (strRemoveAll c pat)) := by
  rw [melt, List.mem_flatMap] at h
  obtain ⟨c, hc, hlr⟩ := h
  cases hp : parseDate (strRemoveAll c pat) with
  | none => rw [hp] at hlr; cases hlr
  | some d =>
    rw [hp] at hlr
    obtain ⟨r0, _, rfl⟩ := List.mem_map.mp hlr
    exact List.mem_filterMap.mpr ⟨c, hc, hp⟩

theorem melt_pairs_nodup {cols : List String} {rows : List (List Cell)} :
    ∀ {vcs : List String} {pat : String},
      ((rows.map (idKey cols)).Nodup) →
      ((vcs.filterMap (fun c => parseDate (strRemoveAll c pat))).Nodup) →
      ((melt cols rows vcs pat).map (fun l => (l.key, l.date))).Nodup := by
  intro vcs
  induction vcs with
  | nil => intro pat _ _; simp [melt]
  | cons c vcs ih =>
    intro pat hrows hdates
    cases hp : parseDate (strRemoveAll c pat) with
    | none =>
      simp only [List.filterMap_cons, hp] at hdates
      have htail := ih hrows hdates
      simp only [melt, List.flatMap_cons, hp, List.nil_append]
      simpa [melt] using htail
    | some d =>
      simp only [List.filterMap_cons, hp] at hdates
      have hd := (List.nodup_cons.mp hdates).1
      have htail := ih hrows (List.nodup_cons.mp hdates).2
      simp only [melt, List.flatMap_cons, hp, List.map_append, List.nodup_append]
      refine ⟨?_, ?_, ?_⟩
      · rw [List.map_map]
        have heq : ((fun l : LongRow => (l.key, l.date))
            ∘ fun r => LongRow.mk (idKey cols r) d (getCell cols r c))
            = ((fun key => (key, d)) ∘ idKey cols) := rfl
        rw [heq, ← List.map_map]
        exact hrows.map (fun a b h => congrArg Prod.fst h)
      · rw [melt] at htail; exact htail
      · intro p hp1 hp2
        obtain ⟨m, hm, rfl⟩ := List.mem_map.mp hp1
        obtain ⟨r0, _, hm0⟩ := List.mem_map.mp hm
        obtain ⟨lr, hlr, heq⟩ := List.mem_map.mp hp2
        have hmd : m.date = d := by rw [← hm0]
        have hlrd : lr.date = d := by
          have := congrArg Prod.snd heq
          simpa [hmd] using this
        have hmem := melt_dates_mem (show lr ∈ melt cols rows vcs pat from hlr)
        rw [hlrd] at hmem
        exact hd hmem

theorem mergeBlock_key_date {rs : List LongRow} {l : LongRow} :
    ∀ m ∈ mergeBlock rs l, m.key = l.key ∧ m.date = l.date := by
  intro m hm
  rw [mergeBlock] at hm
  cases hf : rs.filter (fun r => r.key == l.key && r.date == l.date) with
  | nil =>
    rw [hf] at hm
    rcases List.mem_singleton.mp hm with rfl
    exact ⟨rfl, rfl⟩
  | cons r0 ms =>
    rw [hf] at hm
    obtain ⟨r1, _, rfl⟩ := List.mem_map.mp hm
    exact ⟨rfl, rfl⟩

theorem cntKD_append (a b : List MRow) (k : List Cell) (d : Nat) :
    cntKD (a ++ b) k d = cntKD a k d + cntKD b k d := by
  rw [cntKD, cntKD, cntKD, List.filter_append, List.length_append]

theorem nodup_filter_pair_le_one {rs : List LongRow}
    (h : (rs.map (fun l => (l.key, l.date))).Nodup) (k : List Cell) (d : Nat) :
    (rs.filter (fun r => r.key == k && r.date == d)).length ≤ 1 := by
  induction rs with
  | nil => exact Nat.zero_le 1
  | cons r rs ih =>
    rw [List.map_cons, List.nodup_cons] at h
    rw [List.filter_cons]
    by_cases hr : (r.key == k && r.date == d) = true
    · rw [if_pos hr]
      have hrk : r.key = k ∧ r.date = d := by simpa using hr
      have hnil : rs.filter (fun r => r.key == k && r.date == d) = [] := by
        rw [List.filter_eq_nil_iff]
        intro a ha hpa
        have hak : a.key = k ∧ a.date = d := by simpa using hpa
        exact h.1 (List.mem_map.mpr ⟨a, ha,
          by rw [hak.1, hak.2, hrk.1, hrk.2]⟩)
      rw [hnil]
      exact Nat.le_refl 1
    · rw [if_neg hr]
      exact ih h.2

theorem cntKD_mergeBlock_zero {rs : List LongRow} {l : LongRow}
    {k : List Cell} {d : Nat} (hne : ¬(l.key = k ∧ l.date = d)) :
    cntKD (mergeBlock rs l) k d = 0 := by
  rw [cntKD, List.length_eq_zero, List.filter_eq_nil_iff]
  intro m hm hpm
  have hkd := mergeBlock_key_date m hm
  have : m.key = k ∧ m.date = d := by simpa using hpm
  exact hne ⟨hkd.1 ▸ this.1, hkd.2 ▸ this.2⟩

theorem cntKD_mergeBlock_le_one {rs : List LongRow} {l : LongRow}
    {k : List Cell} {d : Nat}
    (hrs : (rs.map (fun r => (r.key, r.date))).Nodup) :
    cntKD (mergeBlock rs l) k d ≤ 1 := by
  rw [cntKD, mergeBlock]
  cases hf : rs.filter (fun r => r.key == l.key && r.date == l.date) with
  | nil =>
    exact Nat.le_trans (List.length_filter_le _ _) (by rw [List.length_singleton])
  | cons r0 ms =>
    have h1 : ((r0 :: ms).map (fun r => MRow.mk l.key l.date l.value r.value)).length
        = (r0 :: ms).length := List.length_map _ _
    calc (List.filter (fun m => m.key == k && m.date == d)
          ((r0 :: ms).map (fun r => MRow.mk l.key l.date l.value r.value))).length
        ≤ ((r0 :: ms).map (fun r => MRow.mk l.key l.date l.value r.value)).length :=
          List.length_filter_le _ _
      _ = (r0 :: ms).length := h1
      _ = (rs.filter (fun r => r.key == l.key && r.date == l.date)).length := by
          rw [hf]
      _ ≤ 1 := nodup_filter_pair_le_one hrs l.key l.date

theorem cntKD_mergeLeft_zero {rs : List LongRow} {k : List Cell} {d : Nat} :
    ∀ {ls : List LongRow}, (∀ l ∈ ls, ¬(l.key = k ∧ l.date = d)) →
      cntKD (mergeLeft ls rs) k d = 0 := by
  intro ls
  induction ls with
  | nil => intro _; rfl
  | cons l ls ih =>
    intro h
    rw [mergeLeft, List.flatMap_cons]
    rw [show (List.flatMap ls (mergeBlock rs)) = mergeLeft ls rs from rfl]
    rw [cntKD_append, ih (fun l' hl' => h l' (List.mem_cons_of_mem l hl')),
      cntKD_mergeBlock_zero (h l (List.mem_cons_self l ls))]

theorem cntKD_mergeLeft_le_one {rs : List LongRow} {k : List Cell} {d : Nat}
    (hrs : (rs.map (fun r => (r.key, r.date))).Nodup) :
    ∀ {ls : List LongRow}, ((ls.map (fun l => (l.key, l.date))).Nodup) →
      cntKD (mergeLeft ls rs) k d ≤ 1 := by
  intro ls
  induction ls with
  | nil => intro _; exact Nat.zero_le 1
  | cons l ls ih =>
    intro h
    rw [List.map_cons, List.nodup_cons] at h
    rw [mergeLeft, List.flatMap_cons,
      show (List.flatMap ls (mergeBlock rs)) = mergeLeft ls rs from rfl,
      cntKD_append]
    by_cases hp : l.key = k ∧ l.date = d
    · have h0 : cntKD (mergeLeft ls rs) k d = 0 := by
        apply cntKD_mergeLeft_zero
        intro l' hl' hpair'
        exact h.1 (List.mem_map.mpr ⟨l', hl',
          by rw [hpair'.1, hpair'.2, hp.1, hp.2]⟩)
      have h1 := cntKD_mergeBlock_le_one (l := l) (k := k) (d := d) hrs
      omega
    · rw [cntKD_mergeBlock_zero hp]
      have := ih h.2
      omega

theorem cntKD_mergeRight_zero {ls rs : List LongRow} {k : List Cell} {d : Nat}
    (hex : ∃ l ∈ ls, l.key = k ∧ l.date = d) :
    cntKD (mergeRight ls rs) k d = 0 := by
  rw [cntKD, List.length_eq_zero, List.filter_eq_nil_iff]
  intro m hm hpm
  rw [mergeRight] at hm
  obtain ⟨r0, hr0, rfl⟩ := List.mem_map.mp hm
  have hrk : r0.key = k ∧ r0.date = d := by simpa using hpm
  obtain ⟨l0, hl0, hlk⟩ := hex
  have hfil := (List.mem_filter.mp hr0).2
  rw [Bool.not_eq_eq_eq_not, Bool.not_true, List.any_eq_false] at hfil
  exact hfil l0 hl0 (by simp [hlk.1, hlk.2, hrk.1, hrk.2])

theorem cntKD_mergeRight_le_one {ls rs : List LongRow} {k : List Cell} {d : Nat}
    (hrs : (rs.map (fun r => (r.key, r.date))).Nodup) :
    cntKD (mergeRight ls rs) k d ≤ 1 := by
  rw [cntKD, mergeRight, List.filter_map]
  rw [List.length_map]
  have hcomp : ((fun m : MRow => m.key == k && m.date == d)
      ∘ fun r : LongRow => MRow.mk r.key r.date Cell.null r.value)
      = fun r : LongRow => r.key == k && r.date == d := rfl
  rw [hcomp]
  calc ((rs.filter (fun r =>
          !(ls.any (fun l => l.key == r.key && l.date == r.date)))).filter
        (fun r => r.key == k && r.date == d)).length
      ≤ (rs.filter (fun r => r.key == k && r.date == d)).length :=
        ((List.filter_sublist rs).filter _).length_le
    _ ≤ 1 := nodup_filter_pair_le_one hrs k d

theorem cntKD_fillZeros (ms : List MRow) (k : List Cell) (d : Nat) :
    cntKD (fillZeros ms) k d = cntKD ms k d := by
  rw [cntKD, cntKD, fillZeros, List.filter_map, List.length_map]
  exact congrArg List.length (List.filter_congr (fun m _ => rfl))

/-- C2 (amended): if the input rows carry pairwise-distinct identifier
tuples and, within each measurement family, distinct columns parse to
distinct dates, then the merged table returned by `load_data` holds at
most one record per identifiers+date key.  (Without those provisos the
claim fails, see the counterexample.) -/
theorem merged_key_unique (t : RawTable) (out : List MRow)
    (hrows : ((t.rows).map (idKey (normColsOf t))).Nodup)
    (hsd : ((salesColsOf t).filterMap
      (fun c => parseDate (strRemoveAll c "_sales"))).Nodup)
    (hrd : ((restocksColsOf t).filterMap
      (fun c => parseDate (strRemoveAll c "_restocks"))).Nodup)
    (h : load_data t = Except.ok out) (k : List Cell) (d : Nat) :
    cntKD out k d ≤ 1 := by
  rw [load_data] at h
  split_ifs at h with h1 h2 h3
  rw [Except.ok.injEq] at h
  subst h
  have hkept : ((rowsKept t).map (idKey (normColsOf t))).Nodup :=
    (((List.filter_sublist t.rows).map _).nodup) hrows
  have hls := melt_pairs_nodup hkept hsd
  have hrs := melt_pairs_nodup hkept hrd
  rw [cntKD_fillZeros, outerMerge, cntKD_append]
  by_cases hex : ∃ l ∈ melt (normColsOf t) (rowsKept t) (salesColsOf t) "_sales",
      l.key = k ∧ l.date = d
  · rw [cntKD_mergeRight_zero hex]
    have := cntKD_mergeLeft_le_one (k := k) (d := d) hrs hls
    omega
  · push_neg at hex
    rw [cntKD_mergeLeft_zero (fun l hl hp => hex l hl hp.1 hp.2)]
    have := @cntKD_mergeRight_le_one (melt (normColsOf t) (rowsKept t)
      (salesColsOf t) "_sales") (melt (normColsOf t) (rowsKept t)
      (restocksColsOf t) "_restocks") k d hrs
    omega

/-- Witness for C2 (amended): `Tok` has distinct identifier tuples and
distinct family dates, and the key of its first row appears at most once
per date. -/
theorem merged_key_unique_witness :
    cntKD (loadedRows Tok)
      [Cell.str "a", Cell.str "b", Cell.num 1, Cell.str "d",
       Cell.str "e", Cell.str "f"] (toOrdinal 2024 1 1) ≤ 1 :=
  merged_key_unique Tok (loadedRows Tok) (by decide) (by decide) (by decide)
    rfl _ _
